import Mathlib

/-!
Verification of the fan-out fetch aggregator of `src/index.js`
(`fetchTelemetryData` / `fetchTelemetryForMultipleVehicles`).

The JavaScript source is embedded shallowly:
* A settled promise is a pair of its timer delay (from `setTimeout`) and its
  settled outcome (`Except` error value / resolved value).
* `Math.random()` is modelled as an oracle stream `rand : ℕ → ℚ`, one draw per
  call in call order; the JS contract `0 ≤ rand i < 1` is a hypothesis where a
  claim needs it.
* `console.log` / `console.error` output is collected as a list of structured
  log lines (the diagnostic channel).
* `Promise.all` over already-settled outcomes is the fail-fast fold returning
  the first error, or the list of resolved values in input order.
-/

namespace Telemetry

/-- JavaScript error values, carried opaquely. -/
abbrev JsError := String

/-- The object `{ vehicleId, speed }` resolved by `fetchTelemetryData`. -/
structure Sample where
  vehicleId : ℤ
  speed : ℚ
deriving DecidableEq, Repr

/-- A settled simulated promise: the `setTimeout` delay in milliseconds and
the settled outcome. -/
structure Settled (α : Type) where
  delay : ℕ
  outcome : α
deriving DecidableEq, Repr

/-- Embedding of `fetchTelemetryData(vehicleId)`: a promise that settles after
a 1000 ms `setTimeout` and resolves with `{ vehicleId, speed: Math.random() * 100 }`,
where `rand` is the oracle value of this call's `Math.random()`. There is no
code path that rejects. -/
def fetchTelemetryData (rand : ℚ) (vehicleId : ℤ) : Settled (Except JsError Sample) :=
  { delay := 1000, outcome := Except.ok { vehicleId := vehicleId, speed := rand * 100 } }

/-- Embedding of `vehicleIds.map((vehicleId) => fetchTelemetryData(vehicleId))`:
the list of child promises, spawned in input order; the call at position `i`
consumes oracle draw `rand (k + i)`. -/
def spawnFetches (rand : ℕ → ℚ) (k : ℕ) : List ℤ → List (Settled (Except JsError Sample))
  | [] => []
  | v :: vs => fetchTelemetryData (rand k) v :: spawnFetches rand (k + 1) vs

/-- `Promise.all` over settled child outcomes: resolves with the values in
input order when every child resolved, otherwise rejects with the first
rejection. -/
def promiseAll : List (Except JsError Sample) → Except JsError (List Sample)
  | [] => Except.ok []
  | c :: cs =>
    match c with
    | Except.error e => Except.error e
    | Except.ok v => (promiseAll cs).map (fun vs => v :: vs)

/-- One line on the diagnostic channel: the `'Telemetry Data:'` header, one
`Vehicle ID: …, Speed: …` line per sample, or the `console.error` line of the
`catch` branch. -/
inductive LogLine
  | header
  | entry (s : Sample)
  | failure (e : JsError)
deriving DecidableEq, Repr

/-- The body of `fetchTelemetryForMultipleVehicles`, given the settled
outcomes of the child fetches in input order: `try`, `await Promise.all`,
log the report; `catch`, log the error. The value of the pair is the
function's own outcome (the `async` function's settled result) and the
diagnostic lines it emitted. -/
def aggregateTelemetry (children : List (Except JsError Sample)) :
    Except JsError Unit × List LogLine :=
  match promiseAll children with
  | Except.ok telemetryData =>
      (Except.ok (), LogLine.header :: telemetryData.map LogLine.entry)
  | Except.error e => (Except.ok (), [LogLine.failure e])

/-- The intermediate value `await Promise.all(vehicleIds.map(...))` of
`fetchTelemetryForMultipleVehicles`. -/
def telemetryDataOf (rand : ℕ → ℚ) (vehicleIds : List ℤ) : Except JsError (List Sample) :=
  promiseAll ((spawnFetches rand 0 vehicleIds).map Settled.outcome)

/-- Embedding of `fetchTelemetryForMultipleVehicles(vehicleIds)`. -/
def fetchTelemetryForMultipleVehicles (rand : ℕ → ℚ) (vehicleIds : List ℤ) :
    Except JsError Unit × List LogLine :=
  aggregateTelemetry ((spawnFetches rand 0 vehicleIds).map Settled.outcome)

/-- The report that the success path produces, in input order: the sample at
position `i` pairs the `i`-th identifier with its own oracle draw. -/
def reportFrom (rand : ℕ → ℚ) (k : ℕ) : List ℤ → List Sample
  | [] => []
  | v :: vs => { vehicleId := v, speed := rand k * 100 } :: reportFrom rand (k + 1) vs

theorem promiseAll_spawn (rand : ℕ → ℚ) (ids : List ℤ) (k : ℕ) :
    promiseAll ((spawnFetches rand k ids).map Settled.outcome) =
      Except.ok (reportFrom rand k ids) := by
  induction ids generalizing k with
  | nil => rfl
  | cons v vs ih =>
      simp [spawnFetches, fetchTelemetryData, promiseAll, reportFrom, ih, Except.map]

theorem telemetryDataOf_eq (rand : ℕ → ℚ) (ids : List ℤ) :
    telemetryDataOf rand ids = Except.ok (reportFrom rand 0 ids) :=
  promiseAll_spawn rand ids 0

theorem reportFrom_length (rand : ℕ → ℚ) (ids : List ℤ) (k : ℕ) :
    (reportFrom rand k ids).length = ids.length := by
  induction ids generalizing k with
  | nil => rfl
  | cons v vs ih => simp [reportFrom, ih]

theorem reportFrom_map_vehicleId (rand : ℕ → ℚ) (ids : List ℤ) (k : ℕ) :
    (reportFrom rand k ids).map Sample.vehicleId = ids := by
  induction ids generalizing k with
  | nil => rfl
  | cons v vs ih => simp [reportFrom, ih]

/-- C1: for every ordered list of N identifiers, when every child retrieval
succeeds (as it always does here), `fetchTelemetryForMultipleVehicles`'s
aggregation produces a report of exactly N entries carrying the input
identifiers in input order. -/
theorem fetchAll_report_length_and_order (rand : ℕ → ℚ) (ids : List ℤ) :
    ∃ report : List Sample,
      telemetryDataOf rand ids = Except.ok report ∧
      report.length = ids.length ∧
      report.map Sample.vehicleId = ids ∧
      fetchTelemetryForMultipleVehicles rand ids =
        (Except.ok (), LogLine.header :: report.map LogLine.entry) := by
  refine ⟨reportFrom rand 0 ids, telemetryDataOf_eq rand ids,
    reportFrom_length rand ids 0, reportFrom_map_vehicleId rand ids 0, ?_⟩
  simp [fetchTelemetryForMultipleVehicles, aggregateTelemetry, promiseAll_spawn]

theorem reportFrom_get_vehicleId (rand : ℕ → ℚ) (ids : List ℤ) (k i : ℕ)
    (h : i < ids.length) (h2 : i < (reportFrom rand k ids).length) :
    ((reportFrom rand k ids).get ⟨i, h2⟩).vehicleId = ids.get ⟨i, h⟩ := by
  induction ids generalizing k i with
  | nil => cases h
  | cons v vs ih =>
      cases i with
      | zero => rfl
      | succ j =>
          exact ih (k + 1) j (Nat.lt_of_succ_lt_succ h)
            (by simpa [reportFrom, reportFrom_length] using h)

/-- C2: on the success path the i-th report entry carries the i-th input
identifier, for every input list and every position. -/
theorem fetchAll_ith_identifier (rand : ℕ → ℚ) (ids : List ℤ) (i : ℕ)
    (h : i < ids.length) :
    ∃ report : List Sample, telemetryDataOf rand ids = Except.ok report ∧
      ∃ h2 : i < report.length, (report.get ⟨i, h2⟩).vehicleId = ids.get ⟨i, h⟩ := by
  refine ⟨reportFrom rand 0 ids, telemetryDataOf_eq rand ids, ?_⟩
  have h2 : i < (reportFrom rand 0 ids).length := by
    rw [reportFrom_length]; exact h
  exact ⟨h2, reportFrom_get_vehicleId rand ids 0 i h h2⟩

/-- Witness for C2 at the spec's concrete scenario `[1,2,3,4,5]`, position 2. -/
theorem fetchAll_ith_identifier_witness :
    2 < ([1, 2, 3, 4, 5] : List ℤ).length ∧
    ∃ report : List Sample,
      telemetryDataOf (fun _ => 1/2) [1, 2, 3, 4, 5] = Except.ok report ∧
      ∃ h2 : 2 < report.length,
        (report.get ⟨2, h2⟩).vehicleId = ([1, 2, 3, 4, 5] : List ℤ).get ⟨2, by decide⟩ :=
  ⟨by decide, fetchAll_ith_identifier (fun _ => 1/2) [1, 2, 3, 4, 5] 2 (by decide)⟩

/-- C5: the empty input list yields the empty report and no failure. -/
theorem fetchAll_empty (rand : ℕ → ℚ) :
    telemetryDataOf rand [] = Except.ok [] ∧
    fetchTelemetryForMultipleVehicles rand [] = (Except.ok (), [LogLine.header]) := by
  constructor <;> rfl

/-- C6: `fetchTelemetryData` never fails: every call resolves with a sample. -/
theorem fetchTelemetryData_never_fails (rand : ℚ) (vehicleId : ℤ) :
    ∃ s : Sample, (fetchTelemetryData rand vehicleId).outcome = Except.ok s ∧
      s.vehicleId = vehicleId :=
  ⟨{ vehicleId := vehicleId, speed := rand * 100 }, rfl, rfl⟩

/-- C8: every `fetchTelemetryData` call, including every child spawned by the
aggregator, settles after the fixed 1000 ms `setTimeout` delay; no other
timer appears in the model. -/
theorem fetchTelemetryData_delay (rand : ℕ → ℚ) (r : ℚ) (vehicleId : ℤ)
    (ids : List ℤ) (k : ℕ) :
    (fetchTelemetryData r vehicleId).delay = 1000 ∧
    ∀ c ∈ spawnFetches rand k ids, c.delay = 1000 := by
  refine ⟨rfl, ?_⟩
  induction ids generalizing k with
  | nil => intro c hc; cases hc
  | cons v vs ih =>
      intro c hc
      rcases List.mem_cons.mp hc with rfl | hc
      · rfl
      · exact ih (k + 1) c hc

/-- C10: `fetchTelemetryForMultipleVehicles` never rejects: whatever the
children's settled outcomes, the `try/catch` consumes any error and the
function resolves normally with no value. -/
theorem fetchAll_never_rejects (children : List (Except JsError Sample)) :
    (aggregateTelemetry children).1 = Except.ok () := by
  unfold aggregateTelemetry
  cases promiseAll children <;> rfl

theorem promiseAll_first_error (pre : List Sample) (e : JsError)
    (rest : List (Except JsError Sample)) :
    promiseAll (pre.map Except.ok ++ Except.error e :: rest) = Except.error e := by
  induction pre with
  | nil => rfl
  | cons s ss ih => simp [promiseAll, ih, Except.map]

/-- C3 counterexample: with a failing child, the aggregate call's own outcome
is still a normal resolution, not the child's error — the error is only
logged. -/
theorem fetchAll_failure_not_surfaced :
    (Except.error "boom" ∈ ([Except.error "boom"] : List (Except JsError Sample))) ∧
    (aggregateTelemetry [Except.error "boom"]).1 = Except.ok () ∧
    ∀ e : JsError, (aggregateTelemetry [Except.error "boom"]).1 ≠ Except.error e := by
  refine ⟨List.mem_singleton.mpr rfl, rfl, ?_⟩
  intro e h
  cases h

/-- C3 amended: if any child retrieval fails, the aggregation abandons the
remaining results and produces no report entries; the first error encountered
is written to the diagnostic channel as a single failure line, but the
aggregate call itself resolves normally — the error is not surfaced as the
call's outcome. -/
theorem fetchAll_failure_logged_no_partial (pre : List Sample) (e : JsError)
    (rest : List (Except JsError Sample)) :
    aggregateTelemetry (pre.map Except.ok ++ Except.error e :: rest) =
      (Except.ok (), [LogLine.failure e]) := by
  simp [aggregateTelemetry, promiseAll_first_error]

theorem reportFrom_speed (rand : ℕ → ℚ) (ids : List ℤ) (k : ℕ) :
    ∀ s ∈ reportFrom rand k ids, ∃ j : ℕ, s.speed = rand j * 100 := by
  induction ids generalizing k with
  | nil => intro s hs; cases hs
  | cons v vs ih =>
      intro s hs
      rcases List.mem_cons.mp hs with rfl | hs
      · exact ⟨k, rfl⟩
      · exact ih (k + 1) s hs

theorem rand_speed_bounds (r : ℚ) (h0 : 0 ≤ r) (h1 : r < 1) :
    0 ≤ r * 100 ∧ r * 100 < 100 := by
  constructor
  · exact mul_nonneg h0 (by norm_num)
  · have : r * 100 < 1 * 100 := mul_lt_mul_of_pos_right h1 (by norm_num)
    linarith

/-- C4: when each `Math.random()` draw lies in `[0, 1)` as the JS contract
guarantees, every sample `fetchTelemetryData` resolves has `speed` in
`[0, 100)`, and hence so does every entry of every successful report. -/
theorem fetchAll_speed_bounds (rand : ℕ → ℚ) (ids : List ℤ)
    (hr : ∀ i : ℕ, 0 ≤ rand i ∧ rand i < 1) :
    (∀ (i : ℕ) (v : ℤ), ∃ s : Sample,
        (fetchTelemetryData (rand i) v).outcome = Except.ok s ∧
        0 ≤ s.speed ∧ s.speed < 100) ∧
    ∀ report : List Sample, telemetryDataOf rand ids = Except.ok report →
      ∀ s ∈ report, 0 ≤ s.speed ∧ s.speed < 100 := by
  constructor
  · intro i v
    exact ⟨{ vehicleId := v, speed := rand i * 100 }, rfl,
      rand_speed_bounds (rand i) (hr i).1 (hr i).2⟩
  · intro report hrep s hs
    rw [telemetryDataOf_eq] at hrep
    obtain rfl : reportFrom rand 0 ids = report := by
      simpa using hrep
    obtain ⟨j, hj⟩ := reportFrom_speed rand ids 0 s hs
    rw [hj]
    exact rand_speed_bounds (rand j) (hr j).1 (hr j).2

/-- Witness for C4 at `rand = 1/2` throughout, input `[1, 2]`. -/
theorem fetchAll_speed_bounds_witness :
    (∀ i : ℕ, 0 ≤ ((fun _ : ℕ => (1 : ℚ)/2) i) ∧ ((fun _ : ℕ => (1 : ℚ)/2) i) < 1) ∧
    ((∀ (i : ℕ) (v : ℤ), ∃ s : Sample,
        (fetchTelemetryData ((fun _ : ℕ => (1 : ℚ)/2) i) v).outcome = Except.ok s ∧
        0 ≤ s.speed ∧ s.speed < 100) ∧
     ∀ report : List Sample,
        telemetryDataOf (fun _ : ℕ => (1 : ℚ)/2) [1, 2] = Except.ok report →
        ∀ s ∈ report, 0 ≤ s.speed ∧ s.speed < 100) :=
  have h : ∀ i : ℕ, 0 ≤ ((fun _ : ℕ => (1 : ℚ)/2) i) ∧ ((fun _ : ℕ => (1 : ℚ)/2) i) < 1 :=
    fun _ => ⟨by norm_num, by norm_num⟩
  ⟨h, fetchAll_speed_bounds (fun _ : ℕ => (1 : ℚ)/2) [1, 2] h⟩

/-- The world an invocation runs in: the `vehicleIds` array binding and the
console. The source reads the array only through the non-mutating
`Array.prototype.map` (embedded as a pure list traversal) and writes only
console lines, so the translated state update appends the emitted
diagnostics and leaves the array binding as the source left it: untouched. -/
structure World where
  vehicleIds : List ℤ
  console : List LogLine
deriving DecidableEq, Repr

/-- Running `fetchTelemetryForMultipleVehicles(vehicleIds)` against a world. -/
def runFetchTelemetry (rand : ℕ → ℚ) (w : World) : World × Except JsError Unit :=
  let r := fetchTelemetryForMultipleVehicles rand w.vehicleIds
  ({ vehicleIds := w.vehicleIds, console := w.console ++ r.2 }, r.1)

/-- C9: a call's only effect on the world is appending diagnostic lines to
the console: the input identifier list is unchanged and no other state
exists to persist. -/
theorem fetchAll_frame (rand : ℕ → ℚ) (w : World) :
    (runFetchTelemetry rand w).1.vehicleIds = w.vehicleIds ∧
    (runFetchTelemetry rand w).1.console =
      w.console ++ (fetchTelemetryForMultipleVehicles rand w.vehicleIds).2 := by
  constructor <;> rfl

/-! ### Completion-order independence of the aggregation (C7)

`Promise.all` keeps an internal result array; as each child settles, its
value is written into the slot of the child's input index. A schedule is
the list of settlement events `(input index, resolved sample)` in the order
the event loop delivers them; `settleAll` replays a schedule into the
result array. The canonical schedule delivers the events in spawn order;
any real completion order is a permutation of it. -/

/-- Replay settlement events into the result array: each event writes its
sample into the slot of its input index. -/
def fillSlots (acc : List (Option Sample)) : List (ℕ × Sample) → List (Option Sample)
  | [] => acc
  | (i, s) :: rest => fillSlots (acc.set i (some s)) rest

/-- The settlement events of the children spawned from position `k` on, in
spawn order. -/
def eventsFrom (rand : ℕ → ℚ) (k : ℕ) : List ℤ → List (ℕ × Sample)
  | [] => []
  | v :: vs => (k, { vehicleId := v, speed := rand k * 100 }) :: eventsFrom rand (k + 1) vs

/-- The settlement events of `vehicleIds.map(fetchTelemetryData)`. -/
def completionEvents (rand : ℕ → ℚ) (ids : List ℤ) : List (ℕ × Sample) :=
  eventsFrom rand 0 ids

/-- `Promise.all`'s result array of `n` slots after replaying a schedule. -/
def settleAll (n : ℕ) (schedule : List (ℕ × Sample)) : List (Option Sample) :=
  fillSlots (List.replicate n none) schedule

theorem fillSlots_length (evs : List (ℕ × Sample)) (acc : List (Option Sample)) :
    (fillSlots acc evs).length = acc.length := by
  induction evs generalizing acc with
  | nil => rfl
  | cons ev rest ih =>
      obtain ⟨i, s⟩ := ev
      simp [fillSlots, ih]

theorem fillSlots_getElem?_not_written (evs : List (ℕ × Sample))
    (acc : List (Option Sample)) (j : ℕ) (h : ∀ s : Sample, (j, s) ∉ evs) :
    (fillSlots acc evs)[j]? = acc[j]? := by
  induction evs generalizing acc with
  | nil => rfl
  | cons ev rest ih =>
      obtain ⟨i, s⟩ := ev
      have hij : i ≠ j := by
        intro hij
        exact h s (hij ▸ List.mem_cons_self (i, s) rest)
      rw [show fillSlots acc ((i, s) :: rest) = fillSlots (acc.set i (some s)) rest from rfl,
        ih (acc.set i (some s)) (fun s' hs' => h s' (List.mem_cons_of_mem _ hs')),
        List.getElem?_set_ne hij]

theorem fillSlots_getElem?_written (evs : List (ℕ × Sample))
    (acc : List (Option Sample)) (j : ℕ) (s : Sample)
    (hnd : (evs.map Prod.fst).Nodup) (hmem : (j, s) ∈ evs) (hj : j < acc.length) :
    (fillSlots acc evs)[j]? = some (some s) := by
  induction evs generalizing acc with
  | nil => cases hmem
  | cons ev rest ih =>
      obtain ⟨i, a⟩ := ev
      rw [List.map_cons, List.nodup_cons] at hnd
      rcases List.mem_cons.mp hmem with heq | hmem'
      · injection heq with hji hsa
        subst hji
        subst hsa
        have hnot : ∀ s' : Sample, (j, s') ∉ rest := by
          intro s' hs'
          exact hnd.1 (List.mem_map.mpr ⟨(j, s'), hs', rfl⟩)
        rw [show fillSlots acc ((j, s) :: rest) = fillSlots (acc.set j (some s)) rest from rfl,
          fillSlots_getElem?_not_written rest _ j hnot,
          List.getElem?_set_eq_of_lt (some s) hj]
      · exact ih (acc.set i (some a)) hnd.2 hmem' (by simpa using hj)

theorem eventsFrom_map_fst (rand : ℕ → ℚ) (ids : List ℤ) (k : ℕ) :
    (eventsFrom rand k ids).map Prod.fst = List.range' k ids.length := by
  induction ids generalizing k with
  | nil => rfl
  | cons v vs ih => simp [eventsFrom, List.range', ih]

theorem mem_eventsFrom_bound (rand : ℕ → ℚ) (ids : List ℤ) (k j : ℕ) (s : Sample)
    (h : (j, s) ∈ eventsFrom rand k ids) : k ≤ j ∧ j < k + ids.length := by
  have : j ∈ (eventsFrom rand k ids).map Prod.fst :=
    List.mem_map.mpr ⟨(j, s), h, rfl⟩
  rw [eventsFrom_map_fst] at this
  exact List.mem_range'_1.mp this

theorem eventsFrom_mem_of_lt (rand : ℕ → ℚ) (ids : List ℤ) (k j : ℕ)
    (h : j < ids.length) (h2 : j < (reportFrom rand k ids).length) :
    (k + j, (reportFrom rand k ids).get ⟨j, h2⟩) ∈ eventsFrom rand k ids := by
  induction ids generalizing k j with
  | nil => cases h
  | cons v vs ih =>
      cases j with
      | zero => exact List.mem_cons_self _ _
      | succ j' =>
          apply List.mem_cons_of_mem
          have h2' : j' < (reportFrom rand (k + 1) vs).length := by
            rw [reportFrom_length]
            exact Nat.lt_of_succ_lt_succ h
          have hmem := ih (k + 1) j' (Nat.lt_of_succ_lt_succ h) h2'
          have harith : k + (j' + 1) = (k + 1) + j' := by omega
          rw [harith]
          exact hmem

/-- C7: the aggregation is input-order-preserving and not
completion-order-dependent: for every input list and every schedule of child
completions (any permutation of the canonical settlement events), replaying
the schedule fills `Promise.all`'s result array with exactly the report the
success path produces, in input order. -/
theorem fetchAll_order_schedule_independent (rand : ℕ → ℚ) (ids : List ℤ)
    (schedule : List (ℕ × Sample))
    (hperm : schedule.Perm (completionEvents rand ids)) :
    ∃ report : List Sample, telemetryDataOf rand ids = Except.ok report ∧
      settleAll ids.length schedule = report.map some := by
  refine ⟨reportFrom rand 0 ids, telemetryDataOf_eq rand ids, ?_⟩
  have hnd : (schedule.map Prod.fst).Nodup := by
    rw [(hperm.map Prod.fst).nodup_iff]
    rw [show completionEvents rand ids = eventsFrom rand 0 ids from rfl,
      eventsFrom_map_fst]
    exact List.nodup_range' 0 ids.length
  apply List.ext_getElem?
  intro j
  by_cases hj : j < ids.length
  · have h2 : j < (reportFrom rand 0 ids).length := by
      rw [reportFrom_length]; exact hj
    have hmem : (j, (reportFrom rand 0 ids).get ⟨j, h2⟩) ∈ schedule := by
      rw [hperm.mem_iff]
      simpa using eventsFrom_mem_of_lt rand ids 0 j hj h2
    rw [show settleAll ids.length schedule =
        fillSlots (List.replicate ids.length none) schedule from rfl,
      fillSlots_getElem?_written schedule _ j _ hnd hmem (by simpa using hj),
      List.getElem?_map, List.getElem?_eq_getElem h2]
    rfl
  · have hnot : ∀ s : Sample, (j, s) ∉ schedule := by
      intro s hs
      rw [hperm.mem_iff] at hs
      have := mem_eventsFrom_bound rand ids 0 j s hs
      omega
    rw [show settleAll ids.length schedule =
        fillSlots (List.replicate ids.length none) schedule from rfl,
      fillSlots_getElem?_not_written schedule _ j hnot]
    rw [List.getElem?_eq_none (by simpa using Nat.le_of_not_lt hj),
      List.getElem?_eq_none]
    simp [reportFrom_length]
    omega

/-- Witness for C7: input `[7, 8]` with the completions delivered in reverse
spawn order still assembles the report in input order. -/
theorem fetchAll_order_schedule_independent_witness :
    ((completionEvents (fun _ => 0) [7, 8]).reverse).Perm
      (completionEvents (fun _ => 0) [7, 8]) ∧
    ∃ report : List Sample,
      telemetryDataOf (fun _ => 0) [7, 8] = Except.ok report ∧
      settleAll ([7, 8] : List ℤ).length
        ((completionEvents (fun _ => 0) [7, 8]).reverse) = report.map some :=
  have hp : ((completionEvents (fun _ => 0) [7, 8]).reverse).Perm
      (completionEvents (fun _ => 0) [7, 8]) :=
    List.reverse_perm (completionEvents (fun _ => 0) [7, 8])
  ⟨hp, fetchAll_order_schedule_independent (fun _ => 0) [7, 8] _ hp⟩

end Telemetry
